import Mathlib

/-!
Verification of the `OceanCurrents` grid fluid simulation
(stable-fluids solver on a fixed 96×54 grid, from the repository's
OceanCurrents component).

The simulation state is embedded shallowly: a grid is a total function
`ℤ → ℤ → ℚ` (the JavaScript arrays hold reachable values only at
indices `0 ≤ i < 96`, `0 ≤ j < 54`; out-of-range coordinates are never
read or written by the translated operations).  JavaScript numbers are
idealised as exact rationals, and `Math.sin` / `Math.cos` are abstract
functions supplied by a `Trig` structure, optionally constrained to
have range inside `[-1, 1]`.
-/

namespace OceanCurrents

set_option maxRecDepth 8000

/-- Grid width, fixed to 96 in the component. -/
def width : ℤ := 96

/-- Grid height, fixed to 54 in the component. -/
def height : ℤ := 54

/-- A simulation grid: rational value at every integer coordinate pair. -/
abbrev Grid := ℤ → ℤ → ℚ

/-- The all-zero grid (freshly initialised arrays). -/
def zeroGrid : Grid := fun _ _ => 0

/-- Functional update of one cell of a grid. -/
def gset (g : Grid) (i j : ℤ) (v : ℚ) : Grid :=
  fun a b => if a = i ∧ b = j then v else g a b

/-- Coordinates that index an actually-allocated array cell. -/
def inRange (i j : ℤ) : Prop :=
  0 ≤ i ∧ i < width ∧ 0 ≤ j ∧ j < height

instance (i j : ℤ) : Decidable (inRange i j) := by
  unfold inRange; infer_instance

/-- Interior coordinates: the cells updated by the solver loops
(`1 ≤ i ≤ width-2`, `1 ≤ j ≤ height-2`). -/
def interiorP (i j : ℤ) : Prop :=
  1 ≤ i ∧ i ≤ width - 2 ∧ 1 ≤ j ∧ j ≤ height - 2

instance (i j : ℤ) : Decidable (interiorP i j) := by
  unfold interiorP; infer_instance

/-- The interior cell coordinates as naturals, in the order the nested
`for` loops visit them (`i` outer ascending from 1, `j` inner ascending
from 1). -/
def interiorPairs : List (ℕ × ℕ) :=
  (List.range 94).flatMap fun a => (List.range 52).map fun b => (a + 1, b + 1)

/-- The interior cells in loop order, as integer coordinates. -/
def interiorList : List (ℤ × ℤ) :=
  interiorPairs.map fun q => ((q.1 : ℤ), (q.2 : ℤ))

/-- One in-place Gauss–Seidel style sweep: visit the interior cells in
loop order, overwriting each with a value computed from the current
(partially updated) grid. -/
def sweepWith (F : Grid → ℤ → ℤ → ℚ) (g : Grid) : Grid :=
  interiorList.foldl (fun h p => gset h p.1 p.2 (F h p.1 p.2)) g

/-- One relaxation sweep of the `diffuse` routine with coefficient `a`
and source field `x0`. -/
def diffuseA (a : ℚ) (x0 : Grid) : Grid → Grid :=
  sweepWith fun g i j =>
    (x0 i j + a * (g (i - 1) j + g (i + 1) j + g i (j - 1) + g i (j + 1))) / (1 + 4 * a)

/-- The `diffuse` routine: `a = dt * diff * (width-2) * (height-2)`,
then 4 relaxation sweeps updating `x` in place against source `x0`. -/
def diffuse (x x0 : Grid) (diff dt : ℚ) : Grid :=
  (diffuseA (dt * diff * ((width : ℚ) - 2) * ((height : ℚ) - 2)) x0)^[4] x

/-- The two sequential clamping `if`s of `advect`:
`if (x < lo) x = lo; if (x > hi) x = hi`. -/
def clampLoHi (lo hi x : ℚ) : ℚ :=
  if (if x < lo then lo else x) > hi then hi else (if x < lo then lo else x)

/-- The backward-traced and clamped `x` coordinate used by `advect`. -/
def traceX (velX : Grid) (dt : ℚ) (i j : ℤ) : ℚ :=
  clampLoHi (1/2) ((width : ℚ) - 3/2) ((i : ℚ) - dt * ((width : ℚ) - 2) * velX i j)

/-- The backward-traced and clamped `y` coordinate used by `advect`. -/
def traceY (velY : Grid) (dt : ℚ) (i j : ℤ) : ℚ :=
  clampLoHi (1/2) ((height : ℚ) - 3/2) ((j : ℚ) - dt * ((height : ℚ) - 2) * velY i j)

/-- The `advect` routine: semi-Lagrangian backward trace with bilinear
interpolation from `d0`, writing interior cells of `d`; a cell keeps
its old value if the in-bounds guard fails. -/
def advect (d d0 velX velY : Grid) (dt : ℚ) : Grid :=
  fun i j =>
    if interiorP i j then
      let x := traceX velX dt i j
      let y := traceY velY dt i j
      let i0 := ⌊x⌋
      let i1 := i0 + 1
      let j0 := ⌊y⌋
      let j1 := j0 + 1
      let s1 := x - (i0 : ℚ)
      let s0 := 1 - s1
      let t1 := y - (j0 : ℚ)
      let t0 := 1 - t1
      if 0 ≤ i0 ∧ i1 < width ∧ 0 ≤ j0 ∧ j1 < height then
        s0 * (t0 * d0 i0 j0 + t1 * d0 i0 j1) + s1 * (t0 * d0 i1 j0 + t1 * d0 i1 j1)
      else d i j
    else d i j

/-- The discrete divergence computed by `project`:
`-0.5 * (velX[i+1][j] - velX[i-1][j] + velY[i][j+1] - velY[i][j-1]) / ((width+height)/2)`. -/
def divergence (vx vy : Grid) (i j : ℤ) : ℚ :=
  -(1/2) * (vx (i + 1) j - vx (i - 1) j + vy i (j + 1) - vy i (j - 1))
    / (((width : ℚ) + (height : ℚ)) / 2)

/-- The scratch divergence array filled by `project`'s first loop
(interior cells get the discrete divergence, boundary cells stay 0). -/
def divGrid (vx vy : Grid) : Grid :=
  fun i j => if interiorP i j then divergence vx vy i j else 0

/-- The pressure solve of `project`: 4 Gauss–Seidel sweeps of
`p[i][j] = (div[i][j] + p[i-1][j] + p[i+1][j] + p[i][j-1] + p[i][j+1]) / 4`
starting from the zeroed scratch array. -/
def pSolve (dv : Grid) : Grid :=
  (sweepWith fun g i j =>
    (dv i j + g (i - 1) j + g (i + 1) j + g i (j - 1) + g i (j + 1)) / 4)^[4] zeroGrid

/-- The `project` routine: compute divergence, solve for pressure, and
subtract the pressure gradient from the interior velocity cells. -/
def project (vx vy : Grid) : Grid × Grid :=
  let p := pSolve (divGrid vx vy)
  (fun i j =>
      if interiorP i j then vx i j - (1/2) * (p (i + 1) j - p (i - 1) j) * (width : ℚ)
      else vx i j,
   fun i j =>
      if interiorP i j then vy i j - (1/2) * (p i (j + 1) - p i (j - 1)) * (height : ℚ)
      else vy i j)

/-- Viscosity constant `0.000008`. -/
def visc : ℚ := 8 / 1000000

/-- Diffusion constant `0.00008`. -/
def diffC : ℚ := 8 / 100000

/-- The final fade loop of `step`: every allocated density cell is
multiplied by `0.995`. -/
def decay (d : Grid) : Grid :=
  fun i j => if inRange i j then d i j * (995 / 1000) else d i j

/-- Full simulation state: the two velocity component grids, the
density grid, and the internal forcing-time accumulator. -/
structure FluidState where
  velX : Grid
  velY : Grid
  density : Grid
  time : ℚ

/-- The `step` routine, in source order: diffuse both velocity
components into scratch copies, project, self-advect the velocity,
project again, diffuse density into a scratch copy, advect density
along the final velocity, then decay density. -/
def step (st : FluidState) (dt : ℚ) : FluidState :=
  let velX0 := diffuse st.velX st.velX visc dt
  let velY0 := diffuse st.velY st.velY visc dt
  let pr1 := project velX0 velY0
  let velX1 := advect st.velX pr1.1 pr1.1 pr1.2 dt
  let velY1 := advect st.velY pr1.2 pr1.1 pr1.2 dt
  let pr2 := project velX1 velY1
  let s := diffuse st.density st.density diffC dt
  let density1 := advect st.density s pr2.1 pr2.2 dt
  { velX := pr2.1, velY := pr2.2, density := decay density1, time := st.time }

/-- Abstract stand-ins for `Math.sin` and `Math.cos`. -/
structure Trig where
  sin : ℚ → ℚ
  cos : ℚ → ℚ

/-- The only analytic facts the proofs use about the trigonometric
functions: their range lies inside `[-1, 1]`. -/
def TrigBounded (T : Trig) : Prop :=
  ∀ q : ℚ, |T.sin q| ≤ 1 ∧ |T.cos q| ≤ 1

/-- The double-precision value of `Math.PI`, as a rational. -/
def jsPi : ℚ := 3141592653589793 / 1000000000000000

/-- Gyre loop indices `(g, a)` in execution order:
`g` outer over 3 gyres, `a` inner over 6 sample angles. -/
def gyreList : List (ℕ × ℕ) :=
  (List.range 3).flatMap fun g => (List.range 6).map fun a => (g, a)

/-- The sample angle of gyre `g` at loop index `a`:
`(a / 6) * Math.PI * 2 + (time * 0.2 + g * 2.1)`. -/
def gyreAngle (time : ℚ) (g a : ℕ) : ℚ :=
  ((a : ℚ) / 6) * jsPi * 2 + (time * (2/10) + (g : ℚ) * (21/10))

/-- The floored `x` coordinate of a gyre sample. -/
def gyreX (T : Trig) (time : ℚ) (g a : ℕ) : ℤ :=
  ⌊(width : ℚ) * (3/10 + (g : ℚ) * (25/100)) + T.cos (gyreAngle time g a) * (8 + (g : ℚ) * 3)⌋

/-- The floored `y` coordinate of a gyre sample. -/
def gyreY (T : Trig) (time : ℚ) (g a : ℕ) : ℤ :=
  ⌊(height : ℚ) * (5/10) + T.sin (gyreAngle time g a) * (8 + (g : ℚ) * 3)⌋

/-- One gyre sample of `addForces`: tangential velocity and density are
injected at the floored sample position if it passes the bounds guard. -/
def gyreApply (T : Trig) (intensity time : ℚ) (st : FluidState) (ga : ℕ × ℕ) : FluidState :=
  if 0 < gyreX T time ga.1 ga.2 ∧ gyreX T time ga.1 ga.2 < width ∧
      0 < gyreY T time ga.1 ga.2 ∧ gyreY T time ga.1 ga.2 < height then
    { st with
      velX := gset st.velX (gyreX T time ga.1 ga.2) (gyreY T time ga.1 ga.2)
        (st.velX (gyreX T time ga.1 ga.2) (gyreY T time ga.1 ga.2) +
          (-(T.sin (gyreAngle time ga.1 ga.2))) * intensity * (15/100)),
      velY := gset st.velY (gyreX T time ga.1 ga.2) (gyreY T time ga.1 ga.2)
        (st.velY (gyreX T time ga.1 ga.2) (gyreY T time ga.1 ga.2) +
          T.cos (gyreAngle time ga.1 ga.2) * intensity * (15/100)),
      density := gset st.density (gyreX T time ga.1 ga.2) (gyreY T time ga.1 ga.2)
        (min (st.density (gyreX T time ga.1 ga.2) (gyreY T time ga.1 ga.2) +
          ((ga.1 : ℚ) + 1) / 4) 1) }
  else st

/-- The floored stream `x` position: `Math.floor(width * 0.3)`. -/
def streamX : ℤ := ⌊(width : ℚ) * (3/10)⌋

/-- The floored stream `y` position, oscillating with the time
accumulator: `Math.floor(height / 2 + sin(time * 0.3) * height * 0.2)`. -/
def streamY (T : Trig) (time : ℚ) : ℤ :=
  ⌊(height : ℚ) / 2 + T.sin (time * (3/10)) * (height : ℚ) * (2/10)⌋

/-- The stream-source injection of `addForces`. -/
def streamApply (T : Trig) (intensity time : ℚ) (st : FluidState) : FluidState :=
  if 0 < streamX ∧ streamX < width ∧ 0 < streamY T time ∧ streamY T time < height then
    let force := intensity * (4/10)
    { st with
      velX := gset st.velX streamX (streamY T time) (st.velX streamX (streamY T time) + force),
      velY := gset st.velY streamX (streamY T time)
        (st.velY streamX (streamY T time) + T.sin (time * (5/10)) * force * (3/10)),
      density := gset st.density streamX (streamY T time)
        (min (st.density streamX (streamY T time) + 8/10) 1) }
  else st

/-- The `addForces` routine: advance the time accumulator by 0.08,
inject the stream source (velocity scaled by `intensity`, density
`+0.8` clamped at 1), then the 18 gyre samples in loop order. -/
def addForces (T : Trig) (intensity : ℚ) (st : FluidState) : FluidState :=
  let time := st.time + 8/100
  let st2 := gyreList.foldl (gyreApply T intensity time) (streamApply T intensity time st)
  { st2 with time := time }

/-- One animation-frame state update: `addForces()` then `step(dt)`. -/
def frame (T : Trig) (intensity dt : ℚ) (st : FluidState) : FluidState :=
  step (addForces T intensity st) dt

/-- Run a sequence of frames; each input is a `(dt, intensity)` pair. -/
def runFrames (T : Trig) (st : FluidState) (ins : List (ℚ × ℚ)) : FluidState :=
  ins.foldl (fun s p => frame T p.2 p.1 s) st

/-- One translucent filled-circle draw call issued by `render`. -/
structure DrawCall where
  red : ℕ
  green : ℕ
  blue : ℕ
  alpha : ℚ
  cx : ℚ
  cy : ℚ
  radius : ℚ
deriving DecidableEq

/-- The five-entry nautical palette, in source order. -/
def nauticalColors : List (ℕ × ℕ × ℕ) :=
  [(10, 25, 47), (17, 34, 64), (212, 175, 55), (100, 255, 218), (136, 146, 176)]

/-- The body of `render`'s per-cell loop: emit a draw call when the
clamped density exceeds the 0.01 threshold. -/
def cellDraw (dens : Grid) (scroll cw ch : ℚ) (i j : ℤ) : Option DrawCall :=
  let d := min (dens i j) 1
  if d > 1/100 then
    let colorIndex := ⌊d * 5⌋ % 5
    let color := nauticalColors.getD colorIndex.toNat (0, 0, 0)
    let alpha := d * (6/10) * (1 - scroll * (3/10))
    let isGold := d > 6/10 ∧ (i + j) % 7 = 0
    let finalColor := if isGold then nauticalColors.getD 2 (0, 0, 0) else color
    some
      { red := finalColor.1, green := finalColor.2.1, blue := finalColor.2.2,
        alpha := alpha,
        cx := (i : ℚ) * cw + cw / 2,
        cy := (j : ℚ) * ch + ch / 2,
        radius := max (cw * (3/2)) (ch * (3/2)) / 2 }
  else none

/-- All allocated cells in the order `render`'s loops visit them. -/
def allCells : List (ℤ × ℤ) :=
  (List.range 96).flatMap fun i => (List.range 54).map fun j => ((i : ℤ), (j : ℤ))

/-- The `render` routine: a pure read of the state producing the list
of draw calls; the simulation state it leaves behind is returned
explicitly (the source never writes the grids here). -/
def render (st : FluidState) (scroll canvasW canvasH : ℚ) : List DrawCall × FluidState :=
  let cw := canvasW / (width : ℚ)
  let ch := canvasH / (height : ℚ)
  (allCells.filterMap fun p => cellDraw st.density scroll cw ch p.1 p.2, st)

/-- Total density: sum of the density over all allocated cells. -/
def cellFinset : Finset (ℤ × ℤ) :=
  Finset.Icc (0 : ℤ) 95 ×ˢ Finset.Icc (0 : ℤ) 53

/-- Sum of the density grid over the whole 96×54 array. -/
def totalDensity (st : FluidState) : ℚ :=
  ∑ p ∈ cellFinset, st.density p.1 p.2

/-- The all-zero initial state produced by `initArrays`. -/
def initState : FluidState :=
  { velX := zeroGrid, velY := zeroGrid, density := zeroGrid, time := 0 }

/-- A concrete trig model with both functions identically zero
(its range is inside `[-1,1]`). -/
def trigZero : Trig := { sin := fun _ => 0, cos := fun _ => 0 }

/-- A concrete trig model with `sin ≡ 0` and `cos ≡ 1`
(its range is inside `[-1,1]`). -/
def trigOne : Trig := { sin := fun _ => 0, cos := fun _ => 1 }

/-- Alpha formula as the specification words it:
`d × 0.6 × (1 − 0.3 × scrollProgress)`. -/
def specAlpha (d scroll : ℚ) : ℚ := d * (6/10) * (1 - (3/10) * scroll)

/-- Colour selection as the specification words it: the gold palette
entry when `d > 0.6` and `(i+j) mod 7 = 0`, otherwise the palette entry
at index `⌊d·5⌋ mod 5` of the five-entry nautical palette. -/
def specColor (d : ℚ) (i j : ℤ) : ℕ × ℕ × ℕ :=
  if d > 6/10 ∧ (i + j) % 7 = 0 then (212, 175, 55)
  else nauticalColors.getD (⌊d * 5⌋ % 5).toNat (0, 0, 0)

/-- A state with a single density cell holding 1/2 (used as a concrete
instance in witnesses). -/
def halfCellState : FluidState :=
  { velX := zeroGrid, velY := zeroGrid, density := gset zeroGrid 5 5 (1/2), time := 0 }

/-- A second state whose grids are pointwise equal to `initState`'s but
written differently (used to exercise determinism extensionally). -/
def initStateAlt : FluidState :=
  { velX := gset zeroGrid 3 3 0, velY := fun i j => 0 * (i + j : ℚ),
    density := fun _ _ => 1 - 1, time := 0 }

/-! ### Generic helper lemmas -/

theorem gset_same (g : Grid) (i j : ℤ) (v : ℚ) : gset g i j v i j = v := by
  simp [gset]

theorem gset_other (g : Grid) (i j a b : ℤ) (v : ℚ) (h : ¬(a = i ∧ b = j)) :
    gset g i j v a b = g a b := by
  simp only [gset, if_neg h]

/-- A `foldl` of cell updates preserves any invariant each update preserves. -/
theorem foldl_inv {α β : Type} (P : β → Prop) (f : β → α → β) :
    ∀ (l : List α) (s : β), (∀ s a, a ∈ l → P s → P (f s a)) → P s → P (l.foldl f s)
  | [], s, _, hs => hs
  | a :: l, s, hf, hs =>
    foldl_inv P f l (f s a) (fun s b hb => hf s b (List.mem_cons_of_mem a hb))
      (hf s a (List.mem_cons_self a l) hs)

theorem interiorPairs_mem {q : ℕ × ℕ} (hq : q ∈ interiorPairs) :
    1 ≤ q.1 ∧ q.1 ≤ 94 ∧ 1 ≤ q.2 ∧ q.2 ≤ 52 := by
  unfold interiorPairs at hq
  rw [List.mem_flatMap] at hq
  obtain ⟨a, ha, hq2⟩ := hq
  rw [List.mem_map] at hq2
  obtain ⟨b, hb, h⟩ := hq2
  rw [List.mem_range] at ha hb
  subst h
  omega

theorem interiorList_mem {p : ℤ × ℤ} (hp : p ∈ interiorList) : interiorP p.1 p.2 := by
  unfold interiorList at hp
  rw [List.mem_map] at hp
  obtain ⟨q, hq, h⟩ := hp
  have hb := interiorPairs_mem hq
  subst h
  simp only [interiorP, width, height]
  omega

/-- A sweep never changes a non-interior cell. -/
theorem sweepWith_not_interior (F : Grid → ℤ → ℤ → ℚ) (g : Grid) (i j : ℤ)
    (h : ¬ interiorP i j) : sweepWith F g i j = g i j := by
  unfold sweepWith
  have : ∀ (l : List (ℤ × ℤ)) (g : Grid), (∀ p ∈ l, interiorP p.1 p.2) →
      (l.foldl (fun h p => gset h p.1 p.2 (F h p.1 p.2)) g) i j = g i j := by
    intro l
    induction l with
    | nil => intro g _; rfl
    | cons p l ih =>
      intro g hl
      rw [List.foldl_cons, ih _ (fun q hq => hl q (List.mem_cons_of_mem p hq))]
      refine gset_other _ _ _ _ _ _ ?_
      rintro ⟨rfl, rfl⟩
      exact h (hl p (List.mem_cons_self p l))
  exact this interiorList g (fun p hp => interiorList_mem hp)

/-- A sweep preserves a pointwise grid invariant provided the written
values satisfy it. -/
theorem sweepWith_inv (P : Grid → Prop) (F : Grid → ℤ → ℤ → ℚ)
    (hF : ∀ g i j, interiorP i j → P g → P (gset g i j (F g i j)))
    (g : Grid) (hg : P g) : P (sweepWith F g) :=
  foldl_inv P _ interiorList g
    (fun s p hp hs => hF s p.1 p.2 (interiorList_mem hp) hs) hg

theorem iterate_inv {β : Type} (P : β → Prop) (f : β → β)
    (hf : ∀ s, P s → P (f s)) : ∀ (n : ℕ) (s : β), P s → P (f^[n] s)
  | 0, _, hs => hs
  | n + 1, s, hs => by
    rw [Function.iterate_succ_apply]
    exact iterate_inv P f hf n (f s) (hf s hs)

/-! ### Clamp and floor bounds (advection trace) -/

theorem clampLoHi_le (lo hi x : ℚ) (h : lo ≤ hi) :
    lo ≤ clampLoHi lo hi x ∧ clampLoHi lo hi x ≤ hi := by
  unfold clampLoHi
  split_ifs with h1 h2 h3 <;> constructor <;> linarith

theorem clampLoHi_id (lo hi x : ℚ) (h1 : lo ≤ x) (h2 : x ≤ hi) :
    clampLoHi lo hi x = x := by
  unfold clampLoHi
  split_ifs with ha hb <;> linarith

theorem traceX_bounds (velX : Grid) (dt : ℚ) (i j : ℤ) :
    1/2 ≤ traceX velX dt i j ∧ traceX velX dt i j ≤ (width : ℚ) - 3/2 := by
  unfold traceX
  exact clampLoHi_le _ _ _ (by norm_num [width])

theorem traceY_bounds (velY : Grid) (dt : ℚ) (i j : ℤ) :
    1/2 ≤ traceY velY dt i j ∧ traceY velY dt i j ≤ (height : ℚ) - 3/2 := by
  unfold traceY
  exact clampLoHi_le _ _ _ (by norm_num [height])

theorem traceX_floor_bounds (velX : Grid) (dt : ℚ) (i j : ℤ) :
    0 ≤ ⌊traceX velX dt i j⌋ ∧ ⌊traceX velX dt i j⌋ + 1 < width := by
  obtain ⟨h1, h2⟩ := traceX_bounds velX dt i j
  constructor
  · exact Int.le_floor.mpr (by push_cast; linarith)
  · have : ⌊traceX velX dt i j⌋ < 95 := Int.floor_lt.mpr (by push_cast; simp [width] at h2 ⊢; linarith)
    simp only [width]; omega

theorem traceY_floor_bounds (velY : Grid) (dt : ℚ) (i j : ℤ) :
    0 ≤ ⌊traceY velY dt i j⌋ ∧ ⌊traceY velY dt i j⌋ + 1 < height := by
  obtain ⟨h1, h2⟩ := traceY_bounds velY dt i j
  constructor
  · exact Int.le_floor.mpr (by push_cast; linarith)
  · have : ⌊traceY velY dt i j⌋ < 53 := Int.floor_lt.mpr (by push_cast; simp [height] at h2 ⊢; linarith)
    simp only [height]; omega

/-- The in-bounds guard of `advect` always holds, so an interior cell
is always overwritten with the bilinear interpolation. -/
theorem advect_interior (d d0 velX velY : Grid) (dt : ℚ) (i j : ℤ) (h : interiorP i j) :
    advect d d0 velX velY dt i j =
      (1 - (traceX velX dt i j - (⌊traceX velX dt i j⌋ : ℚ))) *
        ((1 - (traceY velY dt i j - (⌊traceY velY dt i j⌋ : ℚ))) * d0 ⌊traceX velX dt i j⌋ ⌊traceY velY dt i j⌋ +
         (traceY velY dt i j - (⌊traceY velY dt i j⌋ : ℚ)) * d0 ⌊traceX velX dt i j⌋ (⌊traceY velY dt i j⌋ + 1)) +
      (traceX velX dt i j - (⌊traceX velX dt i j⌋ : ℚ)) *
        ((1 - (traceY velY dt i j - (⌊traceY velY dt i j⌋ : ℚ))) * d0 (⌊traceX velX dt i j⌋ + 1) ⌊traceY velY dt i j⌋ +
         (traceY velY dt i j - (⌊traceY velY dt i j⌋ : ℚ)) * d0 (⌊traceX velX dt i j⌋ + 1) (⌊traceY velY dt i j⌋ + 1)) := by
  obtain ⟨hx0, hx1⟩ := traceX_floor_bounds velX dt i j
  obtain ⟨hy0, hy1⟩ := traceY_floor_bounds velY dt i j
  unfold advect
  rw [if_pos h, if_pos ⟨hx0, hx1, hy0, hy1⟩]

theorem advect_not_interior (d d0 velX velY : Grid) (dt : ℚ) (i j : ℤ)
    (h : ¬ interiorP i j) : advect d d0 velX velY dt i j = d i j := by
  unfold advect
  rw [if_neg h]

/-! ### Diffusion lemmas -/

/-- With coefficient 0 a relaxation sweep copies `x0` into every
interior cell; starting from `x0` itself it is the identity. -/
theorem diffuseA_zero_self (x0 : Grid) (g : Grid) (hg : ∀ i j, g i j = x0 i j) :
    ∀ i j, diffuseA 0 x0 g i j = x0 i j := by
  unfold diffuseA
  refine sweepWith_inv (fun g => ∀ i j, g i j = x0 i j) _ ?_ g hg
  intro g i j _ hgP a b
  unfold gset
  split_ifs with h
  · obtain ⟨rfl, rfl⟩ := h
    rw [hgP]
    ring
  · exact hgP a b

/-- `diffuse x x diff 0` leaves every cell unchanged. -/
theorem diffuse_self_dt_zero (x : Grid) (diff : ℚ) (i j : ℤ) :
    diffuse x x diff 0 i j = x i j := by
  unfold diffuse
  have ha : (0 : ℚ) * diff * ((width : ℚ) - 2) * ((height : ℚ) - 2) = 0 := by ring
  rw [ha]
  exact iterate_inv (fun g => ∀ i j, g i j = x i j) (diffuseA 0 x)
    (fun s hs => diffuseA_zero_self x s hs) 4 x (fun _ _ => rfl) i j

/-- Interior neighbours are in range. -/
theorem interior_neighbors_inRange (i j : ℤ) (h : interiorP i j) :
    inRange i j ∧ inRange (i - 1) j ∧ inRange (i + 1) j ∧ inRange i (j - 1) ∧ inRange i (j + 1) := by
  obtain ⟨h1, h2, h3, h4⟩ := h
  simp only [inRange, width, height] at *
  omega

/-- A relaxation sweep with nonnegative coefficient keeps every
in-range cell inside `[0, 1]`, provided the source grid is inside
`[0, 1]` on in-range cells. -/
theorem diffuseA_unit (a : ℚ) (ha : 0 ≤ a) (x0 : Grid)
    (hx0 : ∀ i j, inRange i j → 0 ≤ x0 i j ∧ x0 i j ≤ 1) (g : Grid)
    (hg : ∀ i j, inRange i j → 0 ≤ g i j ∧ g i j ≤ 1) :
    ∀ i j, inRange i j → 0 ≤ diffuseA a x0 g i j ∧ diffuseA a x0 g i j ≤ 1 := by
  unfold diffuseA
  refine sweepWith_inv (fun g => ∀ i j, inRange i j → 0 ≤ g i j ∧ g i j ≤ 1) _ ?_ g hg
  intro g i j hint hgP a' b' hab
  unfold gset
  split_ifs with h
  · obtain ⟨rfl, rfl⟩ := h
    obtain ⟨hc, hl, hr, hd, hu⟩ := interior_neighbors_inRange a' b' hint
    obtain ⟨h0c, h1c⟩ := hx0 a' b' hc
    obtain ⟨h0l, h1l⟩ := hgP _ _ hl
    obtain ⟨h0r, h1r⟩ := hgP _ _ hr
    obtain ⟨h0d, h1d⟩ := hgP _ _ hd
    obtain ⟨h0u, h1u⟩ := hgP _ _ hu
    have hden : (0 : ℚ) < 1 + 4 * a := by linarith
    constructor
    · apply div_nonneg _ (le_of_lt hden)
      nlinarith
    · rw [div_le_one hden]
      nlinarith
  · exact hgP a' b' hab

/-- Four sweeps preserve the `[0, 1]` bound of the density diffusion. -/
theorem diffuse_unit (x x0 : Grid) (diff dt : ℚ) (hdiff : 0 ≤ diff) (hdt : 0 ≤ dt)
    (hx0 : ∀ i j, inRange i j → 0 ≤ x0 i j ∧ x0 i j ≤ 1)
    (hx : ∀ i j, inRange i j → 0 ≤ x i j ∧ x i j ≤ 1) :
    ∀ i j, inRange i j → 0 ≤ diffuse x x0 diff dt i j ∧ diffuse x x0 diff dt i j ≤ 1 := by
  unfold diffuse
  have ha : 0 ≤ dt * diff * ((width : ℚ) - 2) * ((height : ℚ) - 2) := by
    have : ((width : ℚ) - 2) = 94 := by norm_num [width]
    have : ((height : ℚ) - 2) = 52 := by norm_num [height]
    positivity
  exact iterate_inv (fun g => ∀ i j, inRange i j → 0 ≤ g i j ∧ g i j ≤ 1) _
    (fun s hs => diffuseA_unit _ ha x0 hx0 s hs) 4 x hx

/-! ### Projection lemmas -/

/-- The pressure solve returns the zero grid when the divergence
scratch grid is pointwise zero. -/
theorem pSolve_zero (dv : Grid) (hdv : ∀ i j, dv i j = 0) :
    ∀ i j, pSolve dv i j = 0 := by
  unfold pSolve
  refine iterate_inv (fun g => ∀ i j, g i j = 0) _ ?_ 4 zeroGrid (fun _ _ => rfl)
  intro s hs
  refine sweepWith_inv (fun g => ∀ i j, g i j = 0) _ ?_ s hs
  intro g i j _ hgP a b
  unfold gset
  split_ifs with h
  · obtain ⟨rfl, rfl⟩ := h
    rw [hdv, hgP, hgP, hgP, hgP]
    norm_num
  · exact hgP a b

/-- Projecting a field that is already discretely divergence-free at
every interior cell leaves both velocity components unchanged. -/
theorem project_divFree (vx vy : Grid)
    (hdf : ∀ i j, interiorP i j → divergence vx vy i j = 0) :
    (∀ i j, (project vx vy).1 i j = vx i j) ∧ (∀ i j, (project vx vy).2 i j = vy i j) := by
  have hdvz : ∀ i j, divGrid vx vy i j = 0 := by
    intro i j
    unfold divGrid
    split_ifs with h
    · exact hdf i j h
    · rfl
  have hp := pSolve_zero (divGrid vx vy) hdvz
  constructor
  · intro i j
    show (if interiorP i j then vx i j - (1/2) * (pSolve (divGrid vx vy) (i + 1) j - pSolve (divGrid vx vy) (i - 1) j) * (width : ℚ) else vx i j) = vx i j
    split_ifs with h
    · rw [hp, hp]; ring
    · rfl
  · intro i j
    show (if interiorP i j then vy i j - (1/2) * (pSolve (divGrid vx vy) i (j + 1) - pSolve (divGrid vx vy) i (j - 1)) * (height : ℚ) else vy i j) = vy i j
    split_ifs with h
    · rw [hp, hp]; ring
    · rfl

theorem project_not_interior (vx vy : Grid) (i j : ℤ) (h : ¬ interiorP i j) :
    (project vx vy).1 i j = vx i j ∧ (project vx vy).2 i j = vy i j := by
  unfold project
  constructor <;> · simp only [if_neg h]

/-! ### More advection lemmas -/

/-- With `dt = 0` the backward trace is the cell itself. -/
theorem traceX_dt_zero (velX : Grid) (i j : ℤ) (h : interiorP i j) :
    traceX velX 0 i j = (i : ℚ) := by
  obtain ⟨h1, h2, _, _⟩ := h
  unfold traceX
  have he : (i : ℚ) - 0 * ((width : ℚ) - 2) * velX i j = (i : ℚ) := by ring
  rw [he]
  apply clampLoHi_id
  · have : (1 : ℚ) ≤ (i : ℚ) := by exact_mod_cast h1
    linarith
  · have : (i : ℚ) ≤ 94 := by
      have := h2; simp only [width] at this
      exact_mod_cast this
    norm_num [width]
    linarith

theorem traceY_dt_zero (velY : Grid) (i j : ℤ) (h : interiorP i j) :
    traceY velY 0 i j = (j : ℚ) := by
  obtain ⟨_, _, h3, h4⟩ := h
  unfold traceY
  have he : (j : ℚ) - 0 * ((height : ℚ) - 2) * velY i j = (j : ℚ) := by ring
  rw [he]
  apply clampLoHi_id
  · have : (1 : ℚ) ≤ (j : ℚ) := by exact_mod_cast h3
    linarith
  · have : (j : ℚ) ≤ 52 := by
      have := h4; simp only [height] at this
      exact_mod_cast this
    norm_num [height]
    linarith

/-- With `dt = 0` advection copies the source field on interior cells. -/
theorem advect_dt_zero (d d0 velX velY : Grid) (i j : ℤ) (h : interiorP i j) :
    advect d d0 velX velY 0 i j = d0 i j := by
  rw [advect_interior d d0 velX velY 0 i j h, traceX_dt_zero velX i j h,
    traceY_dt_zero velY i j h, Int.floor_intCast, Int.floor_intCast]
  ring

/-- The interpolation weights are genuine fractions. -/
theorem fract_bounds (x : ℚ) : 0 ≤ x - (⌊x⌋ : ℚ) ∧ x - (⌊x⌋ : ℚ) < 1 := by
  constructor
  · have := Int.floor_le x; linarith
  · have := Int.lt_floor_add_one x; linarith

/-- A bilinear combination of four values in `[0,1]` with fractional
weights stays in `[0,1]`. -/
theorem bilinear_unit (s1 t1 c00 c01 c10 c11 : ℚ)
    (hs : 0 ≤ s1 ∧ s1 < 1) (ht : 0 ≤ t1 ∧ t1 < 1)
    (h00 : 0 ≤ c00 ∧ c00 ≤ 1) (h01 : 0 ≤ c01 ∧ c01 ≤ 1)
    (h10 : 0 ≤ c10 ∧ c10 ≤ 1) (h11 : 0 ≤ c11 ∧ c11 ≤ 1) :
    0 ≤ (1 - s1) * ((1 - t1) * c00 + t1 * c01) + s1 * ((1 - t1) * c10 + t1 * c11) ∧
    (1 - s1) * ((1 - t1) * c00 + t1 * c01) + s1 * ((1 - t1) * c10 + t1 * c11) ≤ 1 := by
  have hs0 : (0 : ℚ) ≤ 1 - s1 := by linarith [hs.2]
  have ht0 : (0 : ℚ) ≤ 1 - t1 := by linarith [ht.2]
  have hi1 : 0 ≤ (1 - t1) * c00 + t1 * c01 :=
    add_nonneg (mul_nonneg ht0 h00.1) (mul_nonneg ht.1 h01.1)
  have hi2 : 0 ≤ (1 - t1) * c10 + t1 * c11 :=
    add_nonneg (mul_nonneg ht0 h10.1) (mul_nonneg ht.1 h11.1)
  have hi1u : (1 - t1) * c00 + t1 * c01 ≤ 1 := by nlinarith [h00.2, h01.2]
  have hi2u : (1 - t1) * c10 + t1 * c11 ≤ 1 := by nlinarith [h10.2, h11.2]
  constructor
  · exact add_nonneg (mul_nonneg hs0 hi1) (mul_nonneg hs.1 hi2)
  · nlinarith

/-- The four interpolation corners are in range. -/
theorem corners_inRange (velX velY : Grid) (dt : ℚ) (i j : ℤ) :
    inRange ⌊traceX velX dt i j⌋ ⌊traceY velY dt i j⌋ ∧
    inRange ⌊traceX velX dt i j⌋ (⌊traceY velY dt i j⌋ + 1) ∧
    inRange (⌊traceX velX dt i j⌋ + 1) ⌊traceY velY dt i j⌋ ∧
    inRange (⌊traceX velX dt i j⌋ + 1) (⌊traceY velY dt i j⌋ + 1) := by
  obtain ⟨hx0, hx1⟩ := traceX_floor_bounds velX dt i j
  obtain ⟨hy0, hy1⟩ := traceY_floor_bounds velY dt i j
  simp only [inRange, width, height] at *
  omega

/-- Advection keeps every in-range cell inside `[0,1]` provided both
the base and source fields are inside `[0,1]` on in-range cells. -/
theorem advect_unit (d d0 velX velY : Grid) (dt : ℚ)
    (hd : ∀ i j, inRange i j → 0 ≤ d i j ∧ d i j ≤ 1)
    (hd0 : ∀ i j, inRange i j → 0 ≤ d0 i j ∧ d0 i j ≤ 1) :
    ∀ i j, inRange i j → 0 ≤ advect d d0 velX velY dt i j ∧ advect d d0 velX velY dt i j ≤ 1 := by
  intro i j hij
  by_cases h : interiorP i j
  · rw [advect_interior d d0 velX velY dt i j h]
    obtain ⟨hc00, hc01, hc10, hc11⟩ := corners_inRange velX velY dt i j
    exact bilinear_unit _ _ _ _ _ _
      (fract_bounds (traceX velX dt i j)) (fract_bounds (traceY velY dt i j))
      (hd0 _ _ hc00) (hd0 _ _ hc01) (hd0 _ _ hc10) (hd0 _ _ hc11)
  · rw [advect_not_interior d d0 velX velY dt i j h]
    exact hd i j hij

/-! ### Forcing lemmas -/

theorem streamX_eq : streamX = 28 := by
  unfold streamX
  norm_num [width]

theorem streamY_bounds (T : Trig) (hT : TrigBounded T) (t : ℚ) :
    16 ≤ streamY T t ∧ streamY T t ≤ 37 := by
  obtain ⟨hs, _⟩ := hT (t * (3/10))
  obtain ⟨hs1, hs2⟩ := abs_le.mp hs
  unfold streamY
  have hlo : (16 : ℚ) ≤ (height : ℚ) / 2 + T.sin (t * (3/10)) * (height : ℚ) * (2/10) := by
    simp only [height]
    nlinarith
  have hhi : (height : ℚ) / 2 + T.sin (t * (3/10)) * (height : ℚ) * (2/10) < 38 := by
    simp only [height]
    nlinarith
  constructor
  · exact Int.le_floor.mpr (by push_cast; linarith)
  · have : ⌊(height : ℚ) / 2 + T.sin (t * (3/10)) * (height : ℚ) * (2/10)⌋ < 38 :=
      Int.floor_lt.mpr (by push_cast; linarith)
    omega

theorem stream_interior (T : Trig) (hT : TrigBounded T) (t : ℚ) :
    interiorP streamX (streamY T t) := by
  obtain ⟨h1, h2⟩ := streamY_bounds T hT t
  rw [streamX_eq]
  simp only [interiorP, width, height]
  omega

theorem gyre_interior (T : Trig) (hT : TrigBounded T) (t : ℚ) (g a : ℕ) (hg : g < 3) :
    interiorP (gyreX T t g a) (gyreY T t g a) := by
  obtain ⟨hsin, hcos⟩ := hT (gyreAngle t g a)
  obtain ⟨hc1, hc2⟩ := abs_le.mp hcos
  obtain ⟨hs1, hs2⟩ := abs_le.mp hsin
  have hg0 : (0 : ℚ) ≤ (g : ℚ) := Nat.cast_nonneg g
  have hg2 : (g : ℚ) ≤ 2 := by exact_mod_cast Nat.lt_succ_iff.mp hg
  have hr0 : (0 : ℚ) ≤ 8 + (g : ℚ) * 3 := by linarith
  have hmul_lo : -(8 + (g : ℚ) * 3) ≤ T.cos (gyreAngle t g a) * (8 + (g : ℚ) * 3) := by nlinarith
  have hmul_hi : T.cos (gyreAngle t g a) * (8 + (g : ℚ) * 3) ≤ 8 + (g : ℚ) * 3 := by nlinarith
  have hmul_lo' : -(8 + (g : ℚ) * 3) ≤ T.sin (gyreAngle t g a) * (8 + (g : ℚ) * 3) := by nlinarith
  have hmul_hi' : T.sin (gyreAngle t g a) * (8 + (g : ℚ) * 3) ≤ 8 + (g : ℚ) * 3 := by nlinarith
  have hx1 : (1 : ℚ) ≤ (width : ℚ) * (3/10 + (g : ℚ) * (25/100)) +
      T.cos (gyreAngle t g a) * (8 + (g : ℚ) * 3) := by
    simp only [width]; nlinarith
  have hx2 : (width : ℚ) * (3/10 + (g : ℚ) * (25/100)) +
      T.cos (gyreAngle t g a) * (8 + (g : ℚ) * 3) < 95 := by
    simp only [width]; nlinarith
  have hy1 : (1 : ℚ) ≤ (height : ℚ) * (5/10) + T.sin (gyreAngle t g a) * (8 + (g : ℚ) * 3) := by
    simp only [height]; nlinarith
  have hy2 : (height : ℚ) * (5/10) + T.sin (gyreAngle t g a) * (8 + (g : ℚ) * 3) < 53 := by
    simp only [height]; nlinarith
  unfold gyreX gyreY
  refine ⟨Int.le_floor.mpr (by push_cast; linarith), ?_, Int.le_floor.mpr (by push_cast; linarith), ?_⟩
  · have h95 : ⌊(width : ℚ) * (3/10 + (g : ℚ) * (25/100)) +
        T.cos (gyreAngle t g a) * (8 + (g : ℚ) * 3)⌋ < 95 := Int.floor_lt.mpr (by push_cast; linarith)
    rw [show width - 2 = (94 : ℤ) from by norm_num [width]]
    omega
  · have h53 : ⌊(height : ℚ) * (5/10) + T.sin (gyreAngle t g a) * (8 + (g : ℚ) * 3)⌋ < 53 :=
      Int.floor_lt.mpr (by push_cast; linarith)
    rw [show height - 2 = (52 : ℤ) from by norm_num [height]]
    omega

theorem gyreList_mem : ∀ p ∈ gyreList, p.1 < 3 ∧ p.2 < 6 := by
  decide

/-- `addForces` changes no grid value at a non-interior cell. -/
theorem addForces_not_interior (T : Trig) (hT : TrigBounded T) (intensity : ℚ)
    (st : FluidState) (i j : ℤ) (h : ¬ interiorP i j) :
    (addForces T intensity st).velX i j = st.velX i j ∧
    (addForces T intensity st).velY i j = st.velY i j ∧
    (addForces T intensity st).density i j = st.density i j := by
  have hne : ∀ (a b : ℤ), interiorP a b → ¬(i = a ∧ j = b) := by
    rintro a b hab ⟨rfl, rfl⟩
    exact h hab
  have hstream : (streamApply T intensity (st.time + 8/100) st).velX i j = st.velX i j ∧
      (streamApply T intensity (st.time + 8/100) st).velY i j = st.velY i j ∧
      (streamApply T intensity (st.time + 8/100) st).density i j = st.density i j := by
    unfold streamApply
    split_ifs with hguard
    · have hint := stream_interior T hT (st.time + 8/100)
      exact ⟨gset_other _ _ _ _ _ _ (hne _ _ hint), gset_other _ _ _ _ _ _ (hne _ _ hint),
        gset_other _ _ _ _ _ _ (hne _ _ hint)⟩
    · exact ⟨rfl, rfl, rfl⟩
  refine foldl_inv (fun (s : FluidState) => s.velX i j = st.velX i j ∧
    s.velY i j = st.velY i j ∧ s.density i j = st.density i j) _ gyreList _ ?_ hstream
  intro s ga hga hs
  have hint := gyre_interior T hT (st.time + 8/100) ga.1 ga.2 (gyreList_mem ga hga).1
  unfold gyreApply
  split_ifs with hguard
  · exact ⟨(gset_other _ _ _ _ _ _ (hne _ _ hint)).trans hs.1,
      (gset_other _ _ _ _ _ _ (hne _ _ hint)).trans hs.2.1,
      (gset_other _ _ _ _ _ _ (hne _ _ hint)).trans hs.2.2⟩
  · exact hs

/-- `addForces` keeps every in-range density cell inside `[0, 1]`. -/
theorem addForces_unit (T : Trig) (intensity : ℚ) (st : FluidState)
    (hst : ∀ i j, inRange i j → 0 ≤ st.density i j ∧ st.density i j ≤ 1) :
    ∀ i j, inRange i j →
      0 ≤ (addForces T intensity st).density i j ∧ (addForces T intensity st).density i j ≤ 1 := by
  have hstream : ∀ i j, inRange i j →
      0 ≤ (streamApply T intensity (st.time + 8/100) st).density i j ∧
      (streamApply T intensity (st.time + 8/100) st).density i j ≤ 1 := by
    unfold streamApply
    split_ifs with hguard
    · intro i j hij
      show 0 ≤ gset st.density _ _ _ i j ∧ gset st.density _ _ _ i j ≤ 1
      unfold gset
      split_ifs with he
      · have hsxy : inRange streamX (streamY T (st.time + 8/100)) := by
          obtain ⟨g1, g2, g3, g4⟩ := hguard
          exact ⟨le_of_lt g1, g2, le_of_lt g3, g4⟩
        obtain ⟨hd0, hd1⟩ := hst _ _ hsxy
        exact ⟨le_min (by linarith) (by norm_num), min_le_right _ _⟩
      · exact hst i j hij
    · exact hst
  refine foldl_inv (fun (s : FluidState) => ∀ i j, inRange i j →
    0 ≤ s.density i j ∧ s.density i j ≤ 1) _ gyreList _ ?_ hstream
  intro s ga _ hs
  unfold gyreApply
  split_ifs with hguard
  · intro i j hij
    show 0 ≤ gset s.density _ _ _ i j ∧ gset s.density _ _ _ i j ≤ 1
    unfold gset
    split_ifs with he
    · have hxy : inRange (gyreX T (st.time + 8/100) ga.1 ga.2)
          (gyreY T (st.time + 8/100) ga.1 ga.2) := by
        obtain ⟨g1, g2, g3, g4⟩ := hguard
        exact ⟨le_of_lt g1, g2, le_of_lt g3, g4⟩
      obtain ⟨hd0, hd1⟩ := hs _ _ hxy
      have hg0 : (0 : ℚ) ≤ (ga.1 : ℚ) := Nat.cast_nonneg _
      exact ⟨le_min (by linarith) (by norm_num), min_le_right _ _⟩
    · exact hs i j hij
  · exact hs

/-! ### Step-level lemmas -/

/-- The density grid produced by `step`, exposed definitionally. -/
theorem step_density_eq (st : FluidState) (dt : ℚ) :
    (step st dt).density =
      decay (advect st.density (diffuse st.density st.density diffC dt)
        (step st dt).velX (step st dt).velY dt) := rfl

/-- `step` keeps every in-range density cell inside `[0, 1]` for
nonnegative `dt`. -/
theorem step_unit (st : FluidState) (dt : ℚ) (hdt : 0 ≤ dt)
    (hst : ∀ i j, inRange i j → 0 ≤ st.density i j ∧ st.density i j ≤ 1) :
    ∀ i j, inRange i j → 0 ≤ (step st dt).density i j ∧ (step st dt).density i j ≤ 1 := by
  intro i j hij
  rw [step_density_eq]
  have hs : ∀ i j, inRange i j → 0 ≤ diffuse st.density st.density diffC dt i j ∧
      diffuse st.density st.density diffC dt i j ≤ 1 :=
    diffuse_unit _ _ _ _ (by norm_num [diffC]) hdt hst hst
  have hadv := advect_unit st.density (diffuse st.density st.density diffC dt)
    (step st dt).velX (step st dt).velY dt hst hs
  unfold decay
  rw [if_pos hij]
  obtain ⟨h0, h1⟩ := hadv i j hij
  constructor
  · positivity
  · nlinarith

/-- With `dt = 0` the whole step multiplies every in-range density cell
by exactly `0.995`: diffusion and advection are the identity on the
density, and only the decay loop acts. -/
theorem step_dt_zero_density (st : FluidState) (i j : ℤ) (hij : inRange i j) :
    (step st 0).density i j = st.density i j * (995/1000) := by
  rw [step_density_eq]
  unfold decay
  rw [if_pos hij]
  by_cases h : interiorP i j
  · rw [advect_dt_zero _ _ _ _ i j h, diffuse_self_dt_zero]
  · rw [advect_not_interior _ _ _ _ _ i j h]

/-- Cell membership in the summation range is exactly `inRange`. -/
theorem cellFinset_mem (p : ℤ × ℤ) : p ∈ cellFinset ↔ inRange p.1 p.2 := by
  unfold cellFinset inRange
  rw [Finset.mem_product, Finset.mem_Icc, Finset.mem_Icc]
  simp only [width, height]
  omega

/-- With `dt = 0`, total density decays by the exact factor `0.995`. -/
theorem totalDensity_step_dt_zero (st : FluidState) :
    totalDensity (step st 0) = totalDensity st * (995/1000) := by
  unfold totalDensity
  rw [Finset.sum_mul]
  refine Finset.sum_congr rfl ?_
  intro p hp
  exact step_dt_zero_density st p.1 p.2 ((cellFinset_mem p).mp hp)

/-- Iterated zero-`dt` steps decay total density geometrically. -/
theorem totalDensity_iterate_dt_zero (st : FluidState) :
    ∀ n : ℕ, totalDensity ((fun s => step s 0)^[n] st) = totalDensity st * (995/1000) ^ n
  | 0 => by rw [Function.iterate_zero_apply, pow_zero, mul_one]
  | n + 1 => by
    rw [Function.iterate_succ_apply', totalDensity_step_dt_zero,
      totalDensity_iterate_dt_zero st n, pow_succ, mul_assoc]

theorem totalDensity_nonneg (st : FluidState)
    (hst : ∀ i j, inRange i j → 0 ≤ st.density i j) : 0 ≤ totalDensity st := by
  unfold totalDensity
  refine Finset.sum_nonneg ?_
  intro p hp
  exact hst p.1 p.2 ((cellFinset_mem p).mp hp)

/-- Geometric decay beats any positive threshold:
`(199/200)^n ≤ 199/(199+n)` via the Bernoulli inequality. -/
theorem pow_decay_le (n : ℕ) : ((995 : ℚ)/1000) ^ n ≤ 199 / (199 + n) := by
  have h199 : (0 : ℚ) < 199 + (n : ℚ) := by positivity
  have hb : 1 + (n : ℚ) * (1/199) ≤ (1 + 1/199) ^ n := by
    refine one_add_mul_le_pow (by norm_num) n
  have hpos : (0 : ℚ) < (1 + 1/199) ^ n := by positivity
  have hqe : ((995 : ℚ)/1000) = ((1 + 1/199))⁻¹ := by norm_num
  have h1 : (0 : ℚ) < 1 + (n : ℚ) * (1/199) := by positivity
  have h2 : ((1 + 1/199 : ℚ) ^ n)⁻¹ ≤ (1 + (n : ℚ) * (1/199))⁻¹ :=
    inv_anti₀ h1 hb
  have h3 : (1 + (n : ℚ) * (1/199))⁻¹ = 199 / (199 + (n : ℚ)) := by
    rw [inv_eq_one_div, div_eq_div_iff h1.ne' h199.ne']
    ring
  rw [hqe, inv_pow]
  rw [h3] at h2
  exact h2


/-! ### Concrete forcing evaluation under `trigOne` -/

theorem streamY_trigOne (t : ℚ) : streamY trigOne t = 27 := by
  unfold streamY trigOne
  norm_num [height]

theorem gyreX_trigOne_ne (t : ℚ) (g a : ℕ) (hg : g < 3) : gyreX trigOne t g a ≠ 28 := by
  unfold gyreX trigOne
  interval_cases g <;> norm_num [width]

theorem streamApply_init_density (t : ℚ) :
    (streamApply trigOne 0 t initState).density 28 27 = 4/5 := by
  unfold streamApply
  rw [if_pos]
  · show gset initState.density streamX (streamY trigOne t) _ 28 27 = 4/5
    rw [streamX_eq, streamY_trigOne]
    rw [gset_same]
    show min (initState.density 28 27 + 8/10) 1 = 4/5
    norm_num [initState, zeroGrid, min_def]
  · refine ⟨?_, ?_, ?_, ?_⟩ <;> simp only [streamX_eq, streamY_trigOne, width, height] <;> norm_num

theorem addForces_init_density :
    (addForces trigOne 0 initState).density 28 27 = 4/5 := by
  show (gyreList.foldl (gyreApply trigOne 0 (initState.time + 8/100))
      (streamApply trigOne 0 (initState.time + 8/100) initState)).density 28 27 = 4/5
  refine foldl_inv (fun (s : FluidState) => s.density 28 27 = 4/5) _ gyreList _ ?_
    (streamApply_init_density _)
  intro s ga hga hs
  unfold gyreApply
  split_ifs with hguard
  · show gset s.density _ _ _ 28 27 = 4/5
    rw [gset_other]
    · exact hs
    · rintro ⟨h1, -⟩
      exact gyreX_trigOne_ne _ ga.1 ga.2 (gyreList_mem ga hga).1 h1.symm
  · exact hs

theorem totalDensity_init : totalDensity initState = 0 := by
  unfold totalDensity initState zeroGrid
  exact Finset.sum_const_zero

theorem totalDensity_addForces_init_ge :
    (4/5 : ℚ) ≤ totalDensity (addForces trigOne 0 initState) := by
  have hunit := addForces_unit trigOne 0 initState
    (by intro i j _; norm_num [initState, zeroGrid])
  have hmem : ((28 : ℤ), (27 : ℤ)) ∈ cellFinset :=
    (cellFinset_mem _).mpr (by norm_num [inRange, width, height])
  have h := Finset.single_le_sum
    (f := fun p : ℤ × ℤ => (addForces trigOne 0 initState).density p.1 p.2)
    (fun p hp => (hunit p.1 p.2 ((cellFinset_mem p).mp hp)).1) hmem
  unfold totalDensity
  dsimp only at h
  rwa [addForces_init_density] at h



/-! ### Claims -/

/-- **C1, counterexample.**  The claim says that with `intensity = 0`
every forcing-followed-by-step frame leaves the total density
non-increasing.  This is false on the code: `addForces` injects density
unconditionally (the stream adds 0.8 and each gyre sample `(g+1)/4`,
clamped at 1); only the velocity forcing is scaled by `intensity`.
From the reachable all-zero initial state, one frame with
`intensity = 0` and `dt = 0` strictly increases total density. -/
theorem c1_counterexample :
    totalDensity initState < totalDensity (frame trigOne 0 0 initState) := by
  have hstep : totalDensity (frame trigOne 0 0 initState)
      = totalDensity (addForces trigOne 0 initState) * (995/1000) :=
    totalDensity_step_dt_zero _
  have hge := totalDensity_addForces_init_ge
  rw [totalDensity_init, hstep]
  nlinarith

/-- **C1, amended.**  With the unconditional density injection removed
(frames of `step` alone, at `dt = 0` so that diffusion and advection
are the identity on density), total density is multiplied by exactly
0.995 each frame; hence for a nonnegative density field it is
non-increasing from frame to frame and falls below every positive
threshold within a bounded number of steps. -/
theorem c1_total_density_decay (st : FluidState)
    (hnn : ∀ i j, inRange i j → 0 ≤ st.density i j) :
    (∀ n : ℕ, totalDensity ((fun s => step s 0)^[n] st) = totalDensity st * (995/1000) ^ n) ∧
    (∀ n : ℕ, totalDensity ((fun s => step s 0)^[n + 1] st) ≤
      totalDensity ((fun s => step s 0)^[n] st)) ∧
    (∀ ε : ℚ, 0 < ε → ∃ N : ℕ, ∀ m : ℕ, N ≤ m →
      totalDensity ((fun s => step s 0)^[m] st) < ε) := by
  have hT := totalDensity_nonneg st hnn
  refine ⟨totalDensity_iterate_dt_zero st, ?_, ?_⟩
  · intro n
    rw [totalDensity_iterate_dt_zero st (n + 1), totalDensity_iterate_dt_zero st n, pow_succ]
    have hq : (0 : ℚ) ≤ (995/1000 : ℚ) ^ n := by positivity
    nlinarith
  · intro ε hε
    refine ⟨⌈199 * totalDensity st / ε⌉₊, ?_⟩
    intro m hm
    rw [totalDensity_iterate_dt_zero st m]
    have h1 : totalDensity st * (995/1000) ^ m ≤ totalDensity st * (199 / (199 + (m : ℚ))) :=
      mul_le_mul_of_nonneg_left (pow_decay_le m) hT
    have hm2 : (199 * totalDensity st / ε : ℚ) ≤ (m : ℚ) := by
      calc (199 * totalDensity st / ε : ℚ) ≤ (⌈199 * totalDensity st / ε⌉₊ : ℚ) := Nat.le_ceil _
        _ ≤ (m : ℚ) := by exact_mod_cast hm
    rw [div_le_iff₀ hε] at hm2
    have hd : (0 : ℚ) < 199 + (m : ℚ) := by positivity
    have heq : totalDensity st * (199 / (199 + (m : ℚ)))
        = 199 * totalDensity st / (199 + (m : ℚ)) := by ring
    have h2 : totalDensity st * (199 / (199 + (m : ℚ))) < ε := by
      rw [heq, div_lt_iff₀ hd]
      nlinarith
    linarith

/-- **C1, witness for the amended theorem**: a concrete nonnegative
state (a single cell holding 1/2) follows the exact geometric decay for
two steps. -/
theorem c1_total_density_decay_witness :
    totalDensity ((fun s => step s 0)^[2] halfCellState) =
      totalDensity halfCellState * (995/1000) ^ 2 :=
  (c1_total_density_decay halfCellState (by
    intro i j _
    unfold halfCellState gset zeroGrid
    dsimp only
    split_ifs <;> norm_num)).1 2



/-- **C2.**  If every density cell lies in `[0,1]`, then after one
frame (forcing followed by step) with `dt ≥ 0` and `intensity ≥ 0`,
every density cell still lies in `[0,1]`: forcing injections are
clamped at 1, diffusion averages, advection interpolates convexly with
clamped traces, and the 0.995 decay preserves the interval. -/
theorem c2_density_unit_interval (T : Trig) (intensity dt : ℚ) (st : FluidState)
    (hdt : 0 ≤ dt) (hintensity : 0 ≤ intensity)
    (hst : ∀ i j, inRange i j → 0 ≤ st.density i j ∧ st.density i j ≤ 1) :
    ∀ i j, inRange i j →
      0 ≤ (frame T intensity dt st).density i j ∧ (frame T intensity dt st).density i j ≤ 1 :=
  step_unit (addForces T intensity st) dt hdt (addForces_unit T intensity st hst)

/-- **C2, witness**: from the all-zero state with `dt = 1/10`,
`intensity = 1`, the corner cell is still inside `[0,1]`. -/
theorem c2_witness :
    0 ≤ (frame trigZero 1 (1/10) initState).density 0 0 ∧
    (frame trigZero 1 (1/10) initState).density 0 0 ≤ 1 :=
  c2_density_unit_interval trigZero 1 (1/10) initState (by norm_num) (by norm_num)
    (by intro i j _; norm_num [initState, zeroGrid]) 0 0
    (by norm_num [inRange, width, height])

/-- **C3.**  For every input, the backward-traced coordinates of
`advect` are clamped to `[0.5, width-1.5]` and `[0.5, height-1.5]`, so
all four bilinear corners lie inside `[0, width-1] × [0, height-1]`,
the in-bounds guard always holds, and every interior cell is written
with the bilinear interpolation (the guard's `else` branch is dead). -/
theorem c3_advect_in_bounds (velX velY : Grid) (dt : ℚ) (i j : ℤ) (h : interiorP i j) :
    (1/2 ≤ traceX velX dt i j ∧ traceX velX dt i j ≤ (width : ℚ) - 3/2 ∧
     0 ≤ ⌊traceX velX dt i j⌋ ∧ ⌊traceX velX dt i j⌋ + 1 < width) ∧
    (1/2 ≤ traceY velY dt i j ∧ traceY velY dt i j ≤ (height : ℚ) - 3/2 ∧
     0 ≤ ⌊traceY velY dt i j⌋ ∧ ⌊traceY velY dt i j⌋ + 1 < height) ∧
    (∀ d d0 : Grid, advect d d0 velX velY dt i j =
      (1 - (traceX velX dt i j - (⌊traceX velX dt i j⌋ : ℚ))) *
        ((1 - (traceY velY dt i j - (⌊traceY velY dt i j⌋ : ℚ))) *
            d0 ⌊traceX velX dt i j⌋ ⌊traceY velY dt i j⌋ +
         (traceY velY dt i j - (⌊traceY velY dt i j⌋ : ℚ)) *
            d0 ⌊traceX velX dt i j⌋ (⌊traceY velY dt i j⌋ + 1)) +
      (traceX velX dt i j - (⌊traceX velX dt i j⌋ : ℚ)) *
        ((1 - (traceY velY dt i j - (⌊traceY velY dt i j⌋ : ℚ))) *
            d0 (⌊traceX velX dt i j⌋ + 1) ⌊traceY velY dt i j⌋ +
         (traceY velY dt i j - (⌊traceY velY dt i j⌋ : ℚ)) *
            d0 (⌊traceX velX dt i j⌋ + 1) (⌊traceY velY dt i j⌋ + 1))) := by
  obtain ⟨hx1, hx2⟩ := traceX_bounds velX dt i j
  obtain ⟨hy1, hy2⟩ := traceY_bounds velY dt i j
  obtain ⟨hfx1, hfx2⟩ := traceX_floor_bounds velX dt i j
  obtain ⟨hfy1, hfy2⟩ := traceY_floor_bounds velY dt i j
  exact ⟨⟨hx1, hx2, hfx1, hfx2⟩, ⟨hy1, hy2, hfy1, hfy2⟩,
    fun d d0 => advect_interior d d0 velX velY dt i j h⟩

/-- **C3, witness**: the corner bounds at a concrete interior cell. -/
theorem c3_witness :
    interiorP 5 7 ∧
    (0 ≤ ⌊traceX zeroGrid 1 5 7⌋ ∧ ⌊traceX zeroGrid 1 5 7⌋ + 1 < width) ∧
    (0 ≤ ⌊traceY zeroGrid 1 5 7⌋ ∧ ⌊traceY zeroGrid 1 5 7⌋ + 1 < height) :=
  have h : interiorP 5 7 := by decide
  ⟨h, ⟨(c3_advect_in_bounds zeroGrid zeroGrid 1 5 7 h).1.2.2.1,
       (c3_advect_in_bounds zeroGrid zeroGrid 1 5 7 h).1.2.2.2⟩,
     ⟨(c3_advect_in_bounds zeroGrid zeroGrid 1 5 7 h).2.1.2.2.1,
      (c3_advect_in_bounds zeroGrid zeroGrid 1 5 7 h).2.1.2.2.2⟩⟩

/-- **C4.**  Each per-frame update performs exactly the source's
sub-step order: forcing (stream then three gyres of six samples), then
diffuse velocity-X and velocity-Y (4 relaxation sweeps each), project,
advect both velocity components along the post-projection velocity,
project again, diffuse density, advect density along the final
velocity, and finally multiply every density cell by 0.995. -/
theorem c4_step_order :
    (∀ (T : Trig) (intensity dt : ℚ) (st : FluidState),
      frame T intensity dt st =
        (let f := addForces T intensity st
         let velX0 := diffuse f.velX f.velX visc dt
         let velY0 := diffuse f.velY f.velY visc dt
         let pr1 := project velX0 velY0
         let velX1 := advect f.velX pr1.1 pr1.1 pr1.2 dt
         let velY1 := advect f.velY pr1.2 pr1.1 pr1.2 dt
         let pr2 := project velX1 velY1
         let s := diffuse f.density f.density diffC dt
         let density1 := advect f.density s pr2.1 pr2.2 dt
         { velX := pr2.1, velY := pr2.2, density := decay density1, time := f.time })) ∧
    (∀ (x x0 : Grid) (df dt : ℚ),
      diffuse x x0 df dt =
        diffuseA (dt * df * ((width : ℚ) - 2) * ((height : ℚ) - 2)) x0
          (diffuseA (dt * df * ((width : ℚ) - 2) * ((height : ℚ) - 2)) x0
            (diffuseA (dt * df * ((width : ℚ) - 2) * ((height : ℚ) - 2)) x0
              (diffuseA (dt * df * ((width : ℚ) - 2) * ((height : ℚ) - 2)) x0 x)))) ∧
    gyreList = ((List.range 6).map fun a => (0, a)) ++ ((List.range 6).map fun a => (1, a)) ++
      ((List.range 6).map fun a => (2, a)) ∧
    (∀ (T : Trig) (intensity : ℚ) (st : FluidState),
      addForces T intensity st =
        { gyreList.foldl (gyreApply T intensity (st.time + 8/100))
            (streamApply T intensity (st.time + 8/100) st) with time := st.time + 8/100 }) :=
  ⟨fun _ _ _ _ => rfl, fun _ _ _ _ => rfl, by decide, fun _ _ _ => rfl⟩

/-- **C5, counterexample.**  The claim asserts that for *every*
velocity field the post-projection divergence at every interior cell is
strictly smaller in magnitude than before.  The zero field refutes it:
its divergence is already 0 at every interior cell, projection leaves
it unchanged, and `|0| < |0|` is false. -/
theorem c5_counterexample :
    ¬ (|divergence (project zeroGrid zeroGrid).1 (project zeroGrid zeroGrid).2 1 1| <
       |divergence zeroGrid zeroGrid 1 1|) := by
  have hdf : ∀ i j, interiorP i j → divergence zeroGrid zeroGrid i j = 0 := by
    intro i j _
    unfold divergence zeroGrid
    norm_num
  obtain ⟨h1, h2⟩ := project_divFree zeroGrid zeroGrid hdf
  have hda : divergence (project zeroGrid zeroGrid).1 (project zeroGrid zeroGrid).2 1 1 = 0 := by
    unfold divergence
    rw [h1, h1, h2, h2]
    unfold zeroGrid
    norm_num
  have hdb : divergence zeroGrid zeroGrid 1 1 = 0 := hdf 1 1 (by decide)
  rw [hda, hdb]
  simp

/-- **C5, amended.**  For a velocity field that is already discretely
divergence-free at every interior cell, projection leaves both
components unchanged and the post-projection divergence at every
interior cell is exactly zero (within every epsilon); in particular the
strict magnitude decrease claimed for every field fails on such
fields. -/
theorem c5_projection_divfree (vx vy : Grid)
    (hdf : ∀ i j, interiorP i j → divergence vx vy i j = 0) :
    (∀ i j, (project vx vy).1 i j = vx i j ∧ (project vx vy).2 i j = vy i j) ∧
    (∀ i j, interiorP i j → divergence (project vx vy).1 (project vx vy).2 i j = 0) := by
  obtain ⟨h1, h2⟩ := project_divFree vx vy hdf
  refine ⟨fun i j => ⟨h1 i j, h2 i j⟩, ?_⟩
  intro i j hij
  have he : divergence (project vx vy).1 (project vx vy).2 i j = divergence vx vy i j := by
    unfold divergence
    rw [h1, h1, h2, h2]
  rw [he]
  exact hdf i j hij

/-- **C5, witness**: the constant field `(3, 7)` is divergence-free;
projection fixes it and its post-projection divergence vanishes. -/
theorem c5_witness :
    (project (fun _ _ => (3 : ℚ)) (fun _ _ => (7 : ℚ))).1 2 2 = 3 ∧
    divergence (project (fun _ _ => (3 : ℚ)) (fun _ _ => (7 : ℚ))).1
      (project (fun _ _ => (3 : ℚ)) (fun _ _ => (7 : ℚ))).2 2 2 = 0 :=
  have hdf : ∀ i j, interiorP i j →
      divergence (fun _ _ => (3 : ℚ)) (fun _ _ => (7 : ℚ)) i j = 0 := by
    intro i j _
    unfold divergence
    norm_num
  ⟨((c5_projection_divfree _ _ hdf).1 2 2).1,
   (c5_projection_divfree _ _ hdf).2 2 2 (by decide)⟩



/-- **C6.**  Determinism: the fluid core is a pure function of the
initial grids, the time accumulator, and the `(dt, intensity)` input
sequence — there is no random source or wall-clock dependency (the
oscillating source positions come from the internal accumulator stored
in the state).  Two runs from pointwise-equal states on identical input
sequences produce pointwise-identical grids. -/
theorem c6_determinism (T : Trig) (s1 s2 : FluidState) (ins1 ins2 : List (ℚ × ℚ))
    (hvx : ∀ i j, s1.velX i j = s2.velX i j) (hvy : ∀ i j, s1.velY i j = s2.velY i j)
    (hd : ∀ i j, s1.density i j = s2.density i j) (ht : s1.time = s2.time)
    (hins : ins1 = ins2) :
    (∀ i j, (runFrames T s1 ins1).velX i j = (runFrames T s2 ins2).velX i j) ∧
    (∀ i j, (runFrames T s1 ins1).velY i j = (runFrames T s2 ins2).velY i j) ∧
    (∀ i j, (runFrames T s1 ins1).density i j = (runFrames T s2 ins2).density i j) ∧
    (runFrames T s1 ins1).time = (runFrames T s2 ins2).time := by
  have hs : s1 = s2 := by
    obtain ⟨a, b, c, t⟩ := s1
    obtain ⟨a', b', c', t'⟩ := s2
    have ha : a = a' := funext fun i => funext fun j => hvx i j
    have hb : b = b' := funext fun i => funext fun j => hvy i j
    have hc : c = c' := funext fun i => funext fun j => hd i j
    subst ha hb hc
    exact congrArg (FluidState.mk a b c) ht
  rw [hs, hins]
  exact ⟨fun _ _ => rfl, fun _ _ => rfl, fun _ _ => rfl, rfl⟩

/-- **C6, witness**: two syntactically different writings of the
all-zero initial state give the same density after a frame. -/
theorem c6_witness :
    (runFrames trigZero initState [(1/100, 1)]).density 0 0 =
    (runFrames trigZero initStateAlt [(1/100, 1)]).density 0 0 :=
  (c6_determinism trigZero initState initStateAlt [(1/100, 1)] [(1/100, 1)]
    (by intro i j; unfold initState initStateAlt zeroGrid gset; dsimp only; split_ifs <;> rfl)
    (by intro i j; unfold initState initStateAlt zeroGrid; dsimp only; ring)
    (by intro i j; unfold initState initStateAlt zeroGrid; dsimp only; norm_num)
    rfl rfl).2.2.1 0 0

/-- **C7.**  `render` is a pure read of the simulation state: the state
it leaves behind is the input state, and rendering twice without an
intervening `step` issues the same draw-call sequence both times. -/
theorem c7_render_pure (st : FluidState) (scroll canvasW canvasH : ℚ) :
    (render st scroll canvasW canvasH).2 = st ∧
    (render ((render st scroll canvasW canvasH).2) scroll canvasW canvasH).1 =
      (render st scroll canvasW canvasH).1 :=
  ⟨rfl, rfl⟩

/-- **C8.**  `render` emits a filled circle for cell `(i,j)` exactly
when the clamped density `d = min(density[i][j], 1)` exceeds `0.01`;
its alpha is `d·0.6·(1 − 0.3·scrollProgress)`, and its colour is the
gold palette entry when `d > 0.6 ∧ (i+j) % 7 = 0` and otherwise the
nautical palette entry at index `⌊d·5⌋ % 5`; and the draw-call list of
`render` is exactly the per-cell rule applied over all cells in loop
order. -/
theorem c8_render_cell_rule (dens : Grid) (scroll cw ch : ℚ) (i j : ℤ) :
    (cellDraw dens scroll cw ch i j =
      if min (dens i j) 1 > 1/100 then
        some { red := (specColor (min (dens i j) 1) i j).1,
               green := (specColor (min (dens i j) 1) i j).2.1,
               blue := (specColor (min (dens i j) 1) i j).2.2,
               alpha := specAlpha (min (dens i j) 1) scroll,
               cx := (i : ℚ) * cw + cw / 2, cy := (j : ℚ) * ch + ch / 2,
               radius := max (cw * (3/2)) (ch * (3/2)) / 2 }
      else none) ∧
    (∀ (st : FluidState) (canvasW canvasH : ℚ),
      (render st scroll canvasW canvasH).1 =
        allCells.filterMap fun p => cellDraw st.density scroll
          (canvasW / (width : ℚ)) (canvasH / (height : ℚ)) p.1 p.2) := by
  constructor
  · simp only [cellDraw, specColor, specAlpha]
    by_cases h : min (dens i j) 1 > 1/100
    · rw [if_pos h, if_pos h]
      by_cases hg : min (dens i j) 1 > 6/10 ∧ (i + j) % 7 = 0
      · rw [if_pos hg, if_pos hg]
        simp only [Option.some.injEq, DrawCall.mk.injEq, nauticalColors, List.getD,
          true_and, and_true]
        refine ⟨by decide, by decide, by decide, by ring⟩
      · rw [if_neg hg, if_neg hg]
        simp only [Option.some.injEq, DrawCall.mk.injEq, true_and, and_true]
        ring
    · rw [if_neg h, if_neg h]
  · intro st canvasW canvasH
    rfl

/-- **C9.**  Diffusion, advection and projection write only interior
cells (non-interior cells keep their values), and with the fixed
96×54 geometry the stream and every gyre sample of the forcing land on
interior coordinates for every time-accumulator value and intensity, so
`addForces` also changes no non-interior cell. -/
theorem c9_interior_writes :
    (∀ (x x0 : Grid) (df dt : ℚ) (i j : ℤ), ¬ interiorP i j → diffuse x x0 df dt i j = x i j) ∧
    (∀ (d d0 vx vy : Grid) (dt : ℚ) (i j : ℤ), ¬ interiorP i j →
      advect d d0 vx vy dt i j = d i j) ∧
    (∀ (vx vy : Grid) (i j : ℤ), ¬ interiorP i j →
      (project vx vy).1 i j = vx i j ∧ (project vx vy).2 i j = vy i j) ∧
    (∀ (T : Trig), TrigBounded T → ∀ (intensity : ℚ) (st : FluidState),
      interiorP streamX (streamY T (st.time + 8/100)) ∧
      (∀ g a : ℕ, g < 3 →
        interiorP (gyreX T (st.time + 8/100) g a) (gyreY T (st.time + 8/100) g a)) ∧
      (∀ i j : ℤ, ¬ interiorP i j →
        (addForces T intensity st).velX i j = st.velX i j ∧
        (addForces T intensity st).velY i j = st.velY i j ∧
        (addForces T intensity st).density i j = st.density i j)) := by
  refine ⟨?_, ?_, ?_, ?_⟩
  · intro x x0 df dt i j h
    unfold diffuse diffuseA
    exact iterate_inv (fun g => g i j = x i j) _
      (fun s hs => (sweepWith_not_interior _ s i j h).trans hs) 4 x rfl
  · exact fun d d0 vx vy dt i j h => advect_not_interior d d0 vx vy dt i j h
  · exact fun vx vy i j h => project_not_interior vx vy i j h
  · intro T hT intensity st
    exact ⟨stream_interior T hT _,
      fun g a hg => gyre_interior T hT _ g a hg,
      fun i j h => addForces_not_interior T hT intensity st i j h⟩

/-- **C9, witness**: concrete instances at the corner cell `(0,0)`. -/
theorem c9_witness :
    ¬ interiorP 0 0 ∧ TrigBounded trigZero ∧
    diffuse zeroGrid zeroGrid 1 1 0 0 = zeroGrid 0 0 ∧
    advect zeroGrid zeroGrid zeroGrid zeroGrid 1 0 0 = zeroGrid 0 0 ∧
    (project zeroGrid zeroGrid).1 0 0 = zeroGrid 0 0 ∧
    (addForces trigZero 1 initState).density 0 0 = initState.density 0 0 :=
  have h : ¬ interiorP 0 0 := by decide
  have hT : TrigBounded trigZero := by
    intro q
    constructor <;> norm_num [trigZero]
  ⟨h, hT, c9_interior_writes.1 zeroGrid zeroGrid 1 1 0 0 h,
    c9_interior_writes.2.1 zeroGrid zeroGrid zeroGrid zeroGrid 1 0 0 h,
    (c9_interior_writes.2.2.1 zeroGrid zeroGrid 0 0 h).1,
    ((c9_interior_writes.2.2.2 trigZero hT 1 initState).2.2 0 0 h).2.2⟩

/-- **C10.**  In `render`, a cell whose clamped density is exactly 1
(and which the gold override does not capture because
`(i+j) % 7 ≠ 0`) selects palette index `⌊1·5⌋ % 5 = 0`, i.e. the first
palette entry (deep navy `(10,25,47)`): the five-bin quantisation wraps
around at full density. -/
theorem c10_full_density_navy (dens : Grid) (scroll cw ch : ℚ) (i j : ℤ)
    (h1 : min (dens i j) 1 = 1) (h2 : (i + j) % 7 ≠ 0) :
    ⌊(1 : ℚ) * 5⌋ % 5 = 0 ∧
    cellDraw dens scroll cw ch i j =
      some { red := 10, green := 25, blue := 47,
             alpha := 1 * (6/10) * (1 - scroll * (3/10)),
             cx := (i : ℚ) * cw + cw / 2, cy := (j : ℚ) * ch + ch / 2,
             radius := max (cw * (3/2)) (ch * (3/2)) / 2 } := by
  refine ⟨by norm_num, ?_⟩
  unfold cellDraw
  rw [h1]
  rw [if_pos (by norm_num)]
  dsimp only
  have hg : ¬((1 : ℚ) > 6/10 ∧ (i + j) % 7 = 0) := by
    rintro ⟨-, hc⟩
    exact h2 hc
  rw [if_neg hg]
  norm_num [nauticalColors]

/-- **C10, witness**: the constant density-1 grid at cell `(1,2)`. -/
theorem c10_witness :
    min ((fun _ _ => (1 : ℚ)) (1 : ℤ) (2 : ℤ)) 1 = 1 ∧ ((1 : ℤ) + 2) % 7 ≠ 0 ∧
    cellDraw (fun _ _ => (1 : ℚ)) 0 8 8 1 2 =
      some { red := 10, green := 25, blue := 47,
             alpha := 1 * (6/10) * (1 - 0 * (3/10)),
             cx := (1 : ℚ) * 8 + 8 / 2, cy := (2 : ℚ) * 8 + 8 / 2,
             radius := max ((8 : ℚ) * (3/2)) ((8 : ℚ) * (3/2)) / 2 } :=
  ⟨by norm_num, by decide,
    (c10_full_density_navy (fun _ _ => (1 : ℚ)) 0 8 8 1 2 (by norm_num) (by decide)).2⟩


end OceanCurrents
